import Mathlib

/-!
# Verification of the i18n code-generation engine

A shallow embedding of the code-generation core of the `i18n-code-gen`
repository (`src/code_gen.rs`, `src/scala_ast.rs`, data model from
`src/lokalise_client.rs`), together with theorems settling the frozen
claims about its specification.

Conventions:
* Rust `String`/`&str` becomes Lean `String`; scanning algorithms work on
  `List Char` (Rust iterates over `char`s the same way).
* Fallible Rust functions returning `anyhow::Result` become
  `Except GenError _`, with one error constructor per distinct failure
  path of the source.
* The external `heck` crate (case conversion), the inline regex
  `\[%([si]):([^\]]+)\]` (crate `regex`), and `serde_json` decoding are
  modelled by executable Lean functions mirroring their documented
  semantics on Unicode scalar values.
-/

set_option maxRecDepth 100000

namespace I18nGen

/-! ## Basic string machinery (on `List Char`) -/

/-- Lexicographic "less or equal" on char lists by Unicode scalar value;
this is exactly the order Rust's `Ord for str` induces (byte-wise UTF-8
comparison coincides with scalar-value comparison). -/
def strLeL : List Char → List Char → Bool
  | [], _ => true
  | _ :: _, [] => false
  | a :: as, b :: bs =>
    if a.toNat < b.toNat then true
    else if b.toNat < a.toNat then false
    else strLeL as bs

/-- String comparison used wherever the Rust code sorts strings. -/
def strLeb (a b : String) : Bool := strLeL a.data b.data

theorem strLeL_total : ∀ as bs, strLeL as bs = true ∨ strLeL bs as = true := by
  intro as
  induction as with
  | nil => intro bs; left; rfl
  | cons a as ih =>
    intro bs
    cases bs with
    | nil => right; rfl
    | cons b bs =>
      by_cases hab : a.toNat < b.toNat
      · left; simp [strLeL, hab]
      · by_cases hba : b.toNat < a.toNat
        · right; simp [strLeL, hba, hab]
        · rcases ih bs with h | h
          · left; simp [strLeL, hab, hba, h]
          · right; simp [strLeL, hab, hba, h]

theorem strLeL_trans : ∀ as bs cs, strLeL as bs = true → strLeL bs cs = true →
    strLeL as cs = true := by
  intro as
  induction as with
  | nil => intro bs cs _ _; rfl
  | cons a as ih =>
    intro bs cs h1 h2
    cases bs with
    | nil => simp [strLeL] at h1
    | cons b bs =>
      cases cs with
      | nil => simp [strLeL] at h2
      | cons c cs =>
        simp only [strLeL] at h1 h2 ⊢
        split at h1
        · split
          · rfl
          · rename_i hab hca
            split at h2
            · omega
            · split at h2
              · simp at h2
              · omega
        · split at h1
          · simp at h1
          · rename_i hba hab
            split at h2
            · split
              · rfl
              · omega
            · split at h2
              · simp at h2
              · rename_i hcb hbc
                split
                · rfl
                · split
                  · omega
                  · exact ih bs cs h1 h2

theorem char_toNat_inj {a b : Char} (h : a.toNat = b.toNat) : a = b :=
  Char.eq_of_val_eq (UInt32.ext h)

theorem strLeL_antisymm : ∀ as bs, strLeL as bs = true → strLeL bs as = true →
    as = bs := by
  intro as
  induction as with
  | nil =>
    intro bs _ h2
    cases bs with
    | nil => rfl
    | cons b bs => simp [strLeL] at h2
  | cons a as ih =>
    intro bs h1 h2
    cases bs with
    | nil => simp [strLeL] at h1
    | cons b bs =>
      simp only [strLeL] at h1 h2
      by_cases hab : a.toNat < b.toNat
      · rw [if_neg (by omega : ¬ b.toNat < a.toNat), if_pos hab] at h2
        simp at h2
      · by_cases hba : b.toNat < a.toNat
        · rw [if_neg hab, if_pos hba] at h1
          simp at h1
        · rw [if_neg hab, if_neg hba] at h1
          rw [if_neg hba, if_neg hab] at h2
          rw [char_toNat_inj (by omega : a.toNat = b.toNat), ih bs h1 h2]

theorem strLeb_total (a b : String) : strLeb a b = true ∨ strLeb b a = true :=
  strLeL_total a.data b.data

theorem strLeb_trans {a b c : String} (h1 : strLeb a b = true)
    (h2 : strLeb b c = true) : strLeb a c = true :=
  strLeL_trans a.data b.data c.data h1 h2

theorem strLeb_antisymm {a b : String} (h1 : strLeb a b = true)
    (h2 : strLeb b a = true) : a = b := by
  cases a; cases b
  exact congrArg String.mk (strLeL_antisymm _ _ h1 h2)

/-! ## Model of the `heck` crate's case conversions

`code_gen.rs` uses `to_mixed_case` (lower camel case, for method and
parameter names), `to_camel_case` (upper camel case, for locale
singletons) and `to_title_case` (for locale match patterns).  `heck`
splits the input into words — non-alphanumeric characters separate
words, and inside an alphanumeric run a word boundary falls between a
lowercase-mode character and an uppercase one, or before the last
uppercase of an uppercase run that is followed by a lowercase
character — and then recombines the words with the requested
capitalization. -/

/-- Scanner mode of `heck`'s word-boundary detection. -/
inductive WordMode where
  | boundary
  | lower
  | upper
deriving DecidableEq

/-- Mode after seeing character `c` (digits keep the previous mode). -/
def modeStep (mode : WordMode) (c : Char) : WordMode :=
  if c.isLower then .lower else if c.isUpper then .upper else mode

/-- Split one alphanumeric run at case boundaries, `heck`-style.
`cur` holds the current word reversed. -/
def heckWordSplit (mode : WordMode) (cur : List Char) : List Char → List (List Char)
  | [] => [cur.reverse]
  | c :: rest =>
    match rest with
    | [] => [(c :: cur).reverse]
    | next :: _ =>
      let nextMode := modeStep mode c
      if nextMode = .lower ∧ next.isUpper then
        ((c :: cur).reverse) :: heckWordSplit .boundary [] rest
      else if mode = .upper ∧ c.isUpper ∧ next.isLower then
        cur.reverse :: heckWordSplit .boundary [c] rest
      else
        heckWordSplit nextMode (c :: cur) rest

/-- Split into maximal alphanumeric runs, dropping separators. -/
def splitAlnumAux (acc : List Char) : List Char → List (List Char)
  | [] => if acc.isEmpty then [] else [acc.reverse]
  | c :: rest =>
    if c.isAlphanum then splitAlnumAux (c :: acc) rest
    else (if acc.isEmpty then [] else [acc.reverse]) ++ splitAlnumAux [] rest

/-- The word list `heck` derives from a string. -/
def heckWords (s : String) : List (List Char) :=
  (splitAlnumAux [] s.data).flatMap (heckWordSplit .boundary [])

/-- Capitalize: first char uppercase, rest lowercase. -/
def capWord (w : List Char) : List Char :=
  match w with
  | [] => []
  | c :: rest => c.toUpper :: rest.map Char.toLower

/-- All-lowercase word. -/
def lowWord (w : List Char) : List Char := w.map Char.toLower

/-- `heck::MixedCase::to_mixed_case` (lower camel case). -/
def toMixedCase (s : String) : String :=
  match heckWords s with
  | [] => ""
  | w :: ws => String.mk (lowWord w ++ ws.flatMap capWord)

/-- `heck::CamelCase::to_camel_case` (upper camel case). -/
def toCamelCase (s : String) : String :=
  String.mk ((heckWords s).flatMap capWord)

/-- Join words with single spaces. -/
def joinSpaces : List (List Char) → List Char
  | [] => []
  | [w] => w
  | w :: ws => w ++ ' ' :: joinSpaces ws

/-- `heck::TitleCase::to_title_case`. -/
def toTitleCase (s : String) : String :=
  String.mk (joinSpaces ((heckWords s).map capWord))

/-! ## Data model (`lokalise_client.rs`) -/

/-- `KeyName`: the four per-platform names of a key. -/
structure KeyName where
  ios : String
  android : String
  web : String
  other : String
deriving DecidableEq

/-- `KeyName::all_same`. -/
def KeyName.all_same (k : KeyName) : Bool :=
  k.ios == k.android && k.android == k.web && k.web == k.other

/-- `Translation`: a (locale, raw text) pair. -/
structure Translation where
  language_iso : String
  translation : String
deriving DecidableEq

/-- `Key`: one translation key. -/
structure Key where
  key_id : Int
  key_name : KeyName
  translations : List Translation
  is_plural : Bool
deriving DecidableEq

/-- `Project`: id and name of an originating project. -/
structure Project where
  project_id : String
  name : String
deriving DecidableEq

/-! ## Errors

`code_gen.rs` uses `anyhow::Error` with message strings; we model each
distinct failure path by one constructor. -/

/-- The failure paths of the generator. -/
inductive GenError where
  /-- "Key {:?} don't have identical key names for each platform." -/
  | inconsistentKeyName (key : Key)
  /-- "Unsupported placeholder kind: {:?}" (the `_` arm of
  `PlaceholderKind::from_str`). -/
  | unsupportedPlaceholderKind (tag : String)
  /-- a `serde_json` decoding failure of a cardinality payload -/
  | malformedCardinalityPayload
deriving DecidableEq

/-! ## Placeholder extraction (`code_gen.rs`) -/

/-- `PlaceholderKind`. -/
inductive PlaceholderKind where
  | string
  | integer
deriving DecidableEq

/-- `PlaceholderKind::from_str`. -/
def PlaceholderKind.fromStr : String → Except GenError PlaceholderKind
  | "s" => .ok .string
  | "i" => .ok .integer
  | s => .error (.unsupportedPlaceholderKind s)

/-- `Placeholder`: name (mixed-cased), kind, and the raw matched marker. -/
structure Placeholder where
  name : String
  kind : PlaceholderKind
  matched : String
deriving DecidableEq

/-- After `[%<tag>:`, the regex fragment `([^\]]+)\]` takes a nonempty
run of non-`]` characters followed by `]`; returns the captured name and
the remainder. `acc` is the reversed name so far. -/
def grabName : List Char → List Char → Option (List Char × List Char)
  | [], _ => none
  | c :: rest, acc =>
    if c = ']' then (if acc.isEmpty then none else some (acc.reverse, rest))
    else grabName rest (c :: acc)

theorem grabName_length : ∀ cs acc nm r, grabName cs acc = some (nm, r) →
    r.length < cs.length := by
  intro cs
  induction cs with
  | nil => intro acc nm r h; simp [grabName] at h
  | cons c rest ih =>
    intro acc nm r h
    simp only [grabName] at h
    split at h
    · split at h
      · exact absurd h (by simp)
      · simp only [Option.some.injEq, Prod.mk.injEq] at h
        simp [← h.2]
    · exact Nat.lt_trans (ih _ nm r h) (by simp)

/-- One successful raw regex capture: the kind tag, the raw captured
name, and the whole matched marker text. -/
structure RawCapture where
  tag : Char
  rawName : List Char
  matched : List Char
deriving DecidableEq

/-- The successive non-overlapping matches of `\[%([si]):([^\]]+)\]` in
left-to-right order, exactly as `Regex::captures_iter` yields them: at
each position try to match the pattern; on success continue after the
match, otherwise advance one character.  Fuelled so that the kernel can
evaluate it; every step consumes at least one character, so any fuel of
at least the list length computes the full scan. -/
def rawCapturesFuel : Nat → List Char → List RawCapture
  | 0, _ => []
  | _ + 1, [] => []
  | fuel + 1, c :: rest =>
    match c, rest with
    | '[', '%' :: t :: ':' :: rest2 =>
      if t = 's' ∨ t = 'i' then
        match grabName rest2 [] with
        | some (nm, rest') =>
          { tag := t, rawName := nm,
            matched := '[' :: '%' :: t :: ':' :: (nm ++ [']']) } ::
            rawCapturesFuel fuel rest'
        | none => rawCapturesFuel fuel ('%' :: t :: ':' :: rest2)
      else rawCapturesFuel fuel ('%' :: t :: ':' :: rest2)
    | _, _ => rawCapturesFuel fuel rest

/-- Regex scan with enough fuel for the whole input. -/
def rawCaptures (cs : List Char) : List RawCapture :=
  rawCapturesFuel (cs.length + 1) cs

/-- `collect::<Result<Vec<_>>>()` over a mapped iterator: stop at the
first error. -/
def collectResults {α β : Type} (f : α → Except GenError β) :
    List α → Except GenError (List β)
  | [] => .ok []
  | a :: as =>
    match f a with
    | .error e => .error e
    | .ok b =>
      match collectResults f as with
      | .error e => .error e
      | .ok bs => .ok (b :: bs)

/-- `find_placeholders`: scan a raw translation string with the regex
`\[%([si]):([^\]]+)\]`; for each capture parse the kind tag with
`PlaceholderKind::from_str` and mixed-case the captured name. -/
def find_placeholders (s : String) : Except GenError (List Placeholder) :=
  collectResults
    (fun c => do
      let kind ← PlaceholderKind.fromStr (String.mk [c.tag])
      pure { name := toMixedCase (String.mk c.rawName), kind,
             matched := String.mk c.matched })
    (rawCaptures s.data)

/-! ## The Scala AST and its pretty-printer (`scala_ast.rs`)

Rust's `ToCode::to_code(&self, out, indent)` appends text to `out`; we
model every `to_code` as the appended fragment, so sequential writes
become string concatenation.  The `write!`/`writeln!` macros there
prefix `spaces(indent)` to the formatted text; all writes go to a
`String`, so the `.unwrap()` calls can never panic, and the fragment
functions below are total. -/

/-- `spaces(count)`. -/
def spaces (n : Nat) : String := String.mk (List.replicate n ' ')

/-- `Ident`. -/
structure Ident where
  name : String
deriving DecidableEq

/-- `Ident::new`. -/
def Ident.new (name : String) : Ident := ⟨name⟩

/-- `Comment` carried by items and methods (`Comment::new` in
`code_gen.rs` wraps the given text). -/
structure Comment where
  text : String
deriving DecidableEq

/-- `Comment::new`. -/
def Comment.new (text : String) : Comment := ⟨text⟩

/-- The fixed `SCALA_KEYWORDS` table of `is_keyword`. -/
def SCALA_KEYWORDS : List String :=
  ["abstract", "case", "catch", "class", "def", "do", "else", "extends",
   "false", "final", "finally", "for", "forSome", "if", "implicit",
   "import", "lazy", "match", "new", "null", "object", "override",
   "package", "private", "protected", "return", "sealed", "super",
   "this", "throw", "trait", "true", "try", "type", "val", "var",
   "while", "with", "yield"]

/-- `is_keyword`. -/
def is_keyword (ident : String) : Bool := SCALA_KEYWORDS.contains ident

/-- `Ident::to_code`: a keyword identifier is rendered backtick-quoted,
any other identifier verbatim. -/
def Ident.to_code (i : Ident) (indent : Nat) : String :=
  if is_keyword i.name then spaces indent ++ "`" ++ i.name ++ "`"
  else spaces indent ++ i.name

/-! `Expr` and `MatchClause` (mutually recursive in the source). -/

mutual
inductive Expr where
  | Match (expr : Expr) (clauses : List MatchClause)
  | StrLit (value : String) (interpolate : Bool)
  | Var (name : Ident)

inductive MatchClause where
  | mk (pattern : String) (expr : Expr)
end

/-- Pattern of a match clause. -/
def MatchClause.pattern : MatchClause → String
  | ⟨p, _⟩ => p

/-- Body expression of a match clause. -/
def MatchClause.expr : MatchClause → Expr
  | ⟨_, e⟩ => e

/-- Rust `value.split('\n')` on a char list: the list of lines. -/
def splitNl : List Char → List (List Char)
  | [] => [[]]
  | c :: rest =>
    if c = '\n' then [] :: splitNl rest
    else
      match splitNl rest with
      | l :: ls => (c :: l) :: ls
      | [] => [[c]]

/-- `Expr::StrLit` rendering, `Position::Middle` / `Position::Last`
cases. -/
def strLitMid : List (List Char) → String
  | [] => ""
  | [l] => String.mk l ++ "\"\"\""
  | l :: rest => String.mk l ++ "\n" ++ strLitMid rest

/-- `Expr::StrLit` rendering, `Position::Only` / `Position::First`
cases: the opening (possibly interpolating) triple quote. -/
def strLitBody (start : String) (indent : Nat) : List (List Char) → String
  | [] => ""
  | [l] => spaces indent ++ start ++ "\"\"\"" ++ String.mk l ++ "\"\"\""
  | l :: rest =>
    spaces indent ++ start ++ "\"\"\"" ++ String.mk l ++ "\n" ++ strLitMid rest

/-! `Expr::to_code` / `MatchClause::to_code`, and the iteration over a
clause vector. -/

mutual
def Expr.to_code : Expr → Nat → String
  | .Match e clauses, indent =>
    Expr.to_code e indent ++ " match \x7b\n" ++
    MatchClause.listToCode clauses (indent + 2) ++ spaces indent ++ "\x7d\n"
  | .StrLit value interpolate, indent =>
    strLitBody (if interpolate then "s" else "") indent (splitNl value.data)
  | .Var name, indent => name.to_code indent

def MatchClause.to_code : MatchClause → Nat → String
  | ⟨pattern, e⟩, indent =>
    spaces indent ++ "case " ++ pattern ++ " => \x7b\n" ++
    Expr.to_code e (indent + 2) ++ "\n\n" ++ spaces indent ++ "\x7d\n"

def MatchClause.listToCode : List MatchClause → Nat → String
  | [], _ => ""
  | c :: rest, indent => MatchClause.to_code c indent ++ MatchClause.listToCode rest indent
end

/-- `Param`. -/
structure Param where
  name : Ident
  ty : String
deriving DecidableEq

/-- `Param::to_code`. -/
def Param.to_code (p : Param) (indent : Nat) : String :=
  p.name.to_code indent ++ ": " ++ p.ty

/-- `Vec<Param>::to_code`: comma-separated at indent 0. -/
def paramsToCode : List Param → String
  | [] => ""
  | [p] => p.to_code 0
  | p :: rest => p.to_code 0 ++ ", " ++ paramsToCode rest

/-- `MethodDef`. -/
structure MethodDef where
  name : Ident
  params : List Param
  implicit_params : List Param
  return_type : String
  body : Expr
  comment : Option Comment

/-- `MethodDef::to_code`. -/
def MethodDef.to_code (m : MethodDef) (indent : Nat) : String :=
  (match m.comment with
   | some c => spaces indent ++ "// " ++ c.text ++ "\n"
   | none => "") ++
  spaces indent ++ "def " ++ m.name.to_code 0 ++
  (if m.params.isEmpty then "" else "(" ++ paramsToCode m.params ++ ")") ++
  (if m.implicit_params.isEmpty then ""
   else "(implicit " ++ paramsToCode m.implicit_params ++ ")") ++
  ": " ++ m.return_type ++ " = \x7b\n" ++
  m.body.to_code (indent + 2) ++
  spaces indent ++ "\x7d\n"

/-- `Item`: package declarations, (case) objects, traits, and the
comment items `generate_code` pushes (the `Item::Comment` variant
appears in `code_gen.rs`; its printer arm is not part of
`scala_ast.rs`, and is rendered here in the same `// text` line-comment
form the method-comment printer uses). -/
inductive Item where
  | Package (segments : List Ident)
  | Object (isCase : Bool) (name : String) (items : List Item)
      (methods : List MethodDef) (super_type : Option String)
  | Trait (name : String) (sealed : Bool)
  | Comment (comment : I18nGen.Comment)

/-- `Item::Package` segment rendering: dot-separated identifiers. -/
def segmentsToCode : List Ident → String
  | [] => ""
  | [s] => s.to_code 0
  | s :: rest => s.to_code 0 ++ "." ++ segmentsToCode rest

/-- The method loop of `Item::Object` rendering. -/
def methodsToCode : List MethodDef → Nat → String
  | [], _ => ""
  | m :: rest, indent => m.to_code indent ++ methodsToCode rest indent

/-! `Item::to_code`, together with the `with_position()` iteration that
separates consecutive items by one blank line. -/

mutual
def Item.to_code : Item → Nat → String
  | .Package segments, indent => spaces indent ++ "package " ++ segmentsToCode segments
  | .Object isCase name items methods super_type, indent =>
    spaces indent ++ (if isCase then "case " else "") ++ "object " ++ name ++
    (match super_type with
     | some s => " extends " ++ s
     | none => "") ++
    (if items.isEmpty && methods.isEmpty then ""
     else
       " \x7b\n" ++ itemsSepToCode items (indent + 2) ++
       (if !items.isEmpty && !methods.isEmpty then "\n" else "") ++
       methodsToCode methods (indent + 2) ++
       "\n" ++ spaces indent ++ "\x7d")
  | .Trait name sealed, indent =>
    spaces indent ++ (if sealed then "sealed " else "") ++ "trait " ++ name
  | .Comment c, indent => spaces indent ++ "// " ++ c.text

def itemsSepToCode : List Item → Nat → String
  | [], _ => ""
  | [i], indent => Item.to_code i indent
  | i :: rest, indent => Item.to_code i indent ++ "\n\n" ++ itemsSepToCode rest indent
end

/-- `TopLevel`. -/
structure TopLevel where
  items : List Item

/-- `TopLevel::to_code`: the same blank-line-separated iteration. -/
def TopLevel.to_code (t : TopLevel) (indent : Nat) : String :=
  itemsSepToCode t.items indent

/-- The free function `to_code` of `scala_ast.rs`, at the use site of
`generate_code` (a fresh output string, indent 0). -/
def to_code (t : TopLevel) : String := t.to_code 0

/-! ## Model of `serde_json` decoding of cardinality payloads

`translation_method_with_cardinality` runs
`serde_json::from_str::<TranslationWithCardinality>(text)`, where the
struct has exactly the fields `one: String` and `other: String`
(unknown fields ignored, duplicate known fields rejected, the whole
input must be one JSON value followed only by whitespace). -/

/-- JSON values (numbers kept as their raw text — the generator only
ever reads string fields). -/
inductive Json where
  | null
  | jbool (b : Bool)
  | jnum (raw : String)
  | jstr (s : String)
  | jarr (elems : List Json)
  | jobj (members : List (String × Json))

/-- JSON whitespace. -/
def isJsonWs (c : Char) : Bool :=
  c = ' ' || c = '\t' || c = '\n' || c = '\r'

/-- Skip leading whitespace. -/
def skipWs : List Char → List Char
  | [] => []
  | c :: rest => if isJsonWs c then skipWs rest else c :: rest

/-- Hex digit value. -/
def hexVal (c : Char) : Option Nat :=
  if '0' ≤ c ∧ c ≤ '9' then some (c.toNat - '0'.toNat)
  else if 'a' ≤ c ∧ c ≤ 'f' then some (c.toNat - 'a'.toNat + 10)
  else if 'A' ≤ c ∧ c ≤ 'F' then some (c.toNat - 'A'.toNat + 10)
  else none

/-- The single-character escapes of JSON strings. -/
def escChar (c : Char) : Option Char :=
  if c = '"' then some '"'
  else if c = '\\' then some '\\'
  else if c = '/' then some '/'
  else if c = 'b' then some (Char.ofNat 8)
  else if c = 'f' then some (Char.ofNat 12)
  else if c = 'n' then some '\n'
  else if c = 'r' then some '\r'
  else if c = 't' then some '\t'
  else none

/-- Parse the body of a JSON string (after the opening quote) up to and
including the closing quote: unescaped characters must not be control
characters; `\uXXXX` escapes follow the JSON rules, combining surrogate
pairs.  Fuelled structural recursion (one character at least per
step). -/
def parseStrBody : Nat → List Char → Option (List Char × List Char)
  | 0, _ => none
  | _ + 1, [] => none
  | fuel + 1, c :: rest =>
    if c = '"' then some ([], rest)
    else if c = '\\' then
      match rest with
      | [] => none
      | e :: rest2 =>
        if e = 'u' then
          match rest2 with
          | h1 :: h2 :: h3 :: h4 :: rest3 =>
            match hexVal h1, hexVal h2, hexVal h3, hexVal h4 with
            | some v1, some v2, some v3, some v4 =>
              let n := ((v1 * 16 + v2) * 16 + v3) * 16 + v4
              if n < 0xD800 ∨ 0xE000 ≤ n then
                (parseStrBody fuel rest3).map (fun (s, r) => (Char.ofNat n :: s, r))
              else if n < 0xDC00 then
                match rest3 with
                | '\\' :: 'u' :: g1 :: g2 :: g3 :: g4 :: rest4 =>
                  match hexVal g1, hexVal g2, hexVal g3, hexVal g4 with
                  | some w1, some w2, some w3, some w4 =>
                    let m := ((w1 * 16 + w2) * 16 + w3) * 16 + w4
                    if 0xDC00 ≤ m ∧ m < 0xE000 then
                      (parseStrBody fuel rest4).map
                        (fun (s, r) =>
                          (Char.ofNat ((n - 0xD800) * 0x400 + (m - 0xDC00) + 0x10000) :: s, r))
                    else none
                  | _, _, _, _ => none
                | _ => none
              else none
            | _, _, _, _ => none
          | _ => none
        else
          match escChar e with
          | some ce => (parseStrBody fuel rest2).map (fun (s, r) => (ce :: s, r))
          | none => none
    else if c.toNat < 32 then none
    else (parseStrBody fuel rest).map (fun (s, r) => (c :: s, r))

/-- One character satisfying a predicate. -/
def takeWhileL (p : Char → Bool) : List Char → List Char × List Char
  | [] => ([], [])
  | c :: rest =>
    if p c then
      let (tk, rem) := takeWhileL p rest
      (c :: tk, rem)
    else ([], c :: rest)

/-- Strict JSON number grammar:
`-?(0|[1-9][0-9]*)(\.[0-9]+)?([eE][+-]?[0-9]+)?`; returns the raw text
and the remainder. -/
def parseNum (cs : List Char) : Option (List Char × List Char) := do
  let (sign, cs1) :=
    match cs with
    | '-' :: rest => (['-'], rest)
    | _ => ([], cs)
  match cs1 with
  | '0' :: rest => parseNumFrac (sign ++ ['0']) rest
  | c :: rest =>
    if '1' ≤ c ∧ c ≤ '9' then
      let (ds, rem) := takeWhileL Char.isDigit rest
      parseNumFrac (sign ++ c :: ds) rem
    else none
  | [] => none
where
  /-- Optional fraction then optional exponent. -/
  parseNumFrac (intPart : List Char) (cs : List Char) :
      Option (List Char × List Char) :=
    match cs with
    | '.' :: rest =>
      match takeWhileL Char.isDigit rest with
      | ([], _) => none
      | (ds, rem) => parseNumExp (intPart ++ '.' :: ds) rem
    | _ => parseNumExp intPart cs
  /-- Optional exponent. -/
  parseNumExp (mantissa : List Char) (cs : List Char) :
      Option (List Char × List Char) :=
    match cs with
    | e :: rest =>
      if e = 'e' ∨ e = 'E' then
        let (sgn, rest1) :=
          match rest with
          | '+' :: r => (['+'], r)
          | '-' :: r => (['-'], r)
          | _ => ([], rest)
        match takeWhileL Char.isDigit rest1 with
        | ([], _) => none
        | (ds, rem) => some (mantissa ++ e :: (sgn ++ ds), rem)
      else some (mantissa, cs)
    | [] => some (mantissa, cs)

/-- Match a literal keyword. -/
def expectLit : List Char → List Char → Option (List Char)
  | [], cs => some cs
  | k :: ks, c :: cs => if c = k then expectLit ks cs else none
  | _ :: _, [] => none

/-! The recursive JSON value parser, fuelled (each recursive call
consumes at least one character, so `length + 1` fuel suffices). -/

mutual
def parseVal : Nat → List Char → Option (Json × List Char)
  | 0, _ => none
  | fuel + 1, cs =>
    match skipWs cs with
    | [] => none
    | c :: rest =>
      if c = 'n' then (expectLit ['u', 'l', 'l'] rest).map (fun r => (Json.null, r))
      else if c = 't' then
        (expectLit ['r', 'u', 'e'] rest).map (fun r => (Json.jbool true, r))
      else if c = 'f' then
        (expectLit ['a', 'l', 's', 'e'] rest).map (fun r => (Json.jbool false, r))
      else if c = '"' then
        (parseStrBody (rest.length + 1) rest).map
          (fun (s, r) => (Json.jstr (String.mk s), r))
      else if c = '[' then
        match skipWs rest with
        | ']' :: rest2 => some (Json.jarr [], rest2)
        | rest1 => (parseElems fuel rest1).map (fun (es, r) => (Json.jarr es, r))
      else if c = '\x7b' then
        match skipWs rest with
        | '\x7d' :: rest2 => some (Json.jobj [], rest2)
        | rest1 => (parseMembers fuel rest1).map (fun (ms, r) => (Json.jobj ms, r))
      else
        (parseNum (c :: rest)).map (fun (raw, r) => (Json.jnum (String.mk raw), r))

def parseElems : Nat → List Char → Option (List Json × List Char)
  | 0, _ => none
  | fuel + 1, cs => do
    let (v, rest) ← parseVal fuel cs
    match skipWs rest with
    | ',' :: rest2 => (parseElems fuel rest2).map (fun (es, r) => (v :: es, r))
    | ']' :: rest2 => some ([v], rest2)
    | _ => none

def parseMembers : Nat → List Char → Option (List (String × Json) × List Char)
  | 0, _ => none
  | fuel + 1, cs =>
    match skipWs cs with
    | '"' :: rest => do
      let (k, rest1) ← parseStrBody (rest.length + 1) rest
      match skipWs rest1 with
      | ':' :: rest2 => do
        let (v, rest3) ← parseVal fuel rest2
        match skipWs rest3 with
        | ',' :: rest4 =>
          (parseMembers fuel rest4).map (fun (ms, r) => ((String.mk k, v) :: ms, r))
        | '\x7d' :: rest4 => some ([(String.mk k, v)], rest4)
        | _ => none
      | _ => none
    | _ => none
end

/-- `serde_json::from_str` for a whole input: one value, then only
trailing whitespace.  The parser descends one nesting level per two
fuel units and consumes at least one character per level, so
`2 * length + 2` fuel always completes the parse. -/
def parseJsonStr (s : String) : Option Json :=
  match parseVal (2 * s.data.length + 2) s.data with
  | some (j, rest) => if (skipWs rest).isEmpty then some j else none
  | none => none

/-- The `TranslationWithCardinality` struct of `code_gen.rs`. -/
structure TranslationWithCardinality where
  one : String
  other : String
deriving DecidableEq

/-- Decoding into `TranslationWithCardinality`: the input must be a
JSON object; each of `one` and `other` must occur exactly once and hold
a string; unknown fields are ignored. -/
def decodeCardinality (s : String) : Option TranslationWithCardinality :=
  match parseJsonStr s with
  | some (Json.jobj ms) =>
    match ms.filter (fun m => m.1 = "one"), ms.filter (fun m => m.1 = "other") with
    | [(_, Json.jstr one)], [(_, Json.jstr other)] => some ⟨one, other⟩
    | _, _ => none
  | _ => none

/-! ## Method synthesis and unit assembly (`code_gen.rs`) -/

/-- Rust `str::replace` on char lists for a nonempty pattern: replace
every non-overlapping occurrence left to right.  Fuelled; one character
is consumed per step, so `length + 1` fuel scans the whole input. -/
def replaceFuel (pat rep : List Char) : Nat → List Char → List Char
  | 0, cs => cs
  | _ + 1, [] => []
  | fuel + 1, c :: rest =>
    if pat.isPrefixOf (c :: rest) then
      rep ++ replaceFuel pat rep fuel (List.drop pat.length (c :: rest))
    else c :: replaceFuel pat rep fuel rest

/-- Rust `str::replace` with an empty pattern inserts the replacement
around every character (it splits at every boundary). -/
def replaceEmptyPat (rep : List Char) : List Char → List Char
  | [] => rep
  | c :: rest => rep ++ c :: replaceEmptyPat rep rest

/-- Rust `String::replace(&self, from, to)`. -/
def strReplace (s pat rep : String) : String :=
  if pat.data.isEmpty then String.mk (replaceEmptyPat rep.data s.data)
  else String.mk (replaceFuel pat.data rep.data (s.data.length + 1) s.data)

/-- `build_translated_value_with_interpolations`: replace each
placeholder's matched marker text by the interpolation reference
`$\x7bname\x7d`; the literal interpolates iff the placeholder list is
nonempty. -/
def build_translated_value_with_interpolations (translation : String)
    (placeholders : List Placeholder) : Expr :=
  .StrLit
    (placeholders.foldl
      (fun t p => strReplace t p.matched ("$\x7b" ++ p.name ++ "\x7d"))
      translation)
    (!placeholders.isEmpty)

/-- Order on placeholders used by `sort_unstable_by_key(|p| p.name)`. -/
def phLe (a b : Placeholder) : Prop := strLeb a.name b.name = true

instance : DecidableRel phLe :=
  fun a b => inferInstanceAs (Decidable (strLeb a.name b.name = true))

instance : IsTotal Placeholder phLe := ⟨fun a b => strLeb_total a.name b.name⟩

instance : IsTrans Placeholder phLe := ⟨fun _ _ _ => strLeb_trans⟩

/-- Order on strings used by `names.sort()` in `find_locales`. -/
def strLe (a b : String) : Prop := strLeb a b = true

instance : DecidableRel strLe :=
  fun a b => inferInstanceAs (Decidable (strLeb a b = true))

instance : IsTotal String strLe := ⟨strLeb_total⟩

instance : IsTrans String strLe := ⟨fun _ _ _ => strLeb_trans⟩

instance : IsAntisymm String strLe := ⟨fun _ _ => strLeb_antisymm⟩

/-- `build_method_params`: extract the placeholders of every
translation (propagating failures), form the set union
(`collect::<HashSet<_>>`, here: `dedup`), sort by name, and map each
placeholder to a typed parameter. -/
def build_method_params (key : Key) :
    Except GenError (List Placeholder × List Param) :=
  match collectResults (fun t => find_placeholders t.translation) key.translations with
  | .error e => .error e
  | .ok phss =>
    let placeholders := (phss.flatten.dedup).insertionSort phLe
    let method_params := placeholders.map (fun p =>
      ({ name := Ident.new p.name,
         ty := match p.kind with
               | .string => "String"
               | .integer => "Int" } : Param))
    .ok (placeholders, method_params)

/-- The per-translation closure inside
`translation_method_with_cardinality`: decode the raw text as a
cardinality payload (`?` propagates the failure) and build the locale
clause whose body dispatches on cardinality, `Singular` then
`Plural`. -/
def card_locale_clause (placeholders : List Placeholder)
    (translation : Translation) : Except GenError MatchClause :=
  match decodeCardinality translation.translation with
  | none => .error .malformedCardinalityPayload
  | some tc =>
    .ok (MatchClause.mk ("Locale." ++ toTitleCase translation.language_iso)
          (.Match (.Var (Ident.new "cardinality"))
            [MatchClause.mk "Cardinality.Singular"
              (build_translated_value_with_interpolations tc.one placeholders),
             MatchClause.mk "Cardinality.Plural"
              (build_translated_value_with_interpolations tc.other placeholders)]))

/-- `translation_method_with_cardinality`. -/
def translation_method_with_cardinality (key : Key) : Except GenError MethodDef :=
  match build_method_params key with
  | .error e => .error e
  | .ok (placeholders, params0) =>
    let method_params :=
      params0 ++ [({ name := Ident.new "cardinality", ty := "Cardinality" } : Param)]
    match collectResults (card_locale_clause placeholders) key.translations with
    | .error e => .error e
    | .ok locale_match_clauses =>
      .ok { name := Ident.new (toMixedCase key.key_name.ios),
            params := method_params,
            implicit_params := [{ name := Ident.new "locale", ty := "Locale" }],
            return_type := "String",
            body := .Match (.Var (Ident.new "locale")) locale_match_clauses,
            comment := some (Comment.new key.key_name.ios) }

/-- `translation_method_without_cardinality`. -/
def translation_method_without_cardinality (key : Key) : Except GenError MethodDef :=
  match build_method_params key with
  | .error e => .error e
  | .ok (placeholders, method_params) =>
    let locale_match_clauses := key.translations.map (fun translation =>
      MatchClause.mk ("Locale." ++ toTitleCase translation.language_iso)
        (build_translated_value_with_interpolations
          translation.translation placeholders))
    .ok { name := Ident.new (toMixedCase key.key_name.ios),
          params := method_params,
          implicit_params := [{ name := Ident.new "locale", ty := "Locale" }],
          return_type := "String",
          body := .Match (.Var (Ident.new "locale")) locale_match_clauses,
          comment := some (Comment.new key.key_name.ios) }

/-- `translation_method`: reject keys whose four platform names are not
identical, then dispatch on `is_plural`. -/
def translation_method (key : Key) : Except GenError MethodDef :=
  if !key.key_name.all_same then .error (.inconsistentKeyName key)
  else if key.is_plural then translation_method_with_cardinality key
  else translation_method_without_cardinality key

/-- `translation_methods`. -/
def translation_methods (keys : List Key) : Except GenError (List MethodDef) :=
  collectResults translation_method keys

/-- `find_locales`: the distinct `language_iso` values of every
translation of every key (`collect::<HashSet<_>>`, here `dedup`),
sorted. -/
def find_locales (keys : List Key) : List String :=
  (((keys.flatMap (fun k => k.translations)).map
      (fun t => t.language_iso)).dedup).insertionSort strLe

/-- `locale_enum_variants`: one `object <CamelCase locale> extends
Locale` per derived locale. -/
def locale_enum_variants (keys : List Key) : List Item :=
  (find_locales keys).map (fun locale =>
    Item.Object false (toCamelCase locale) [] [] (some "Locale"))

/-- `hardcoded_items`: the package declaration and the Cardinality
hierarchy. -/
def hardcoded_items : List Item :=
  [Item.Package [Ident.new "dk", Ident.new "undo", Ident.new "i18n"],
   Item.Trait "Cardinality" true,
   Item.Object false "Cardinality"
     [Item.Object true "Singular" [] [] (some "Cardinality"),
      Item.Object true "Plural" [] [] (some "Cardinality")]
     [] none]

/-- The item list `generate_code` assembles, in push order: the
`format: off` comment, the hardcoded items, the Locale trait and its
variants object, one object per project inside the `I18n` object, and
the `format: on` comment. -/
def generate_items (projects : List (Project × List Key)) :
    Except GenError (List Item) :=
  let all_keys := projects.flatMap (fun p => p.2)
  match collectResults
      (fun p =>
        match translation_methods p.2 with
        | .error e => .error e
        | .ok methods =>
          .ok (Item.Object false (toMixedCase p.1.name) [] methods none))
      projects with
  | .error e => .error e
  | .ok items_inside_i18n_obj =>
    .ok ([Item.Comment (Comment.new "format: off")] ++
         hardcoded_items ++
         [Item.Trait "Locale" true,
          Item.Object false "Locale" (locale_enum_variants all_keys) [] none] ++
         [Item.Object false "I18n" items_inside_i18n_obj [] none] ++
         [Item.Comment (Comment.new "format: on")])

/-- `generate_code`: assemble the items and render the top-level unit;
any synthesis failure aborts the run before any text is produced. -/
def generate_code (projects : List (Project × List Key)) :
    Except GenError String :=
  match generate_items projects with
  | .error e => .error e
  | .ok items => .ok (to_code { items })

/-! ## Infrastructure lemmas -/

/-- Success test for `Except`. -/
def isOkE {α : Type} : Except GenError α → Bool
  | .ok _ => true
  | .error _ => false

theorem collectResults_ok_of_forall {α β : Type} {f : α → Except GenError β}
    {g : α → β} : ∀ {l : List α}, (∀ a ∈ l, f a = .ok (g a)) →
    collectResults f l = .ok (l.map g) := by
  intro l
  induction l with
  | nil => intro _; rfl
  | cons a as ih =>
    intro h
    have ha := h a (by simp)
    have has := ih (fun x hx => h x (by simp [hx]))
    simp [collectResults, ha, has]

theorem collectResults_forall2 {α β : Type} {f : α → Except GenError β} :
    ∀ {l : List α} {bs : List β}, collectResults f l = .ok bs →
    List.Forall₂ (fun a b => f a = .ok b) l bs := by
  intro l
  induction l with
  | nil =>
    intro bs h
    simp only [collectResults, Except.ok.injEq] at h
    rw [← h]
    exact .nil
  | cons a as ih =>
    intro bs h
    simp only [collectResults] at h
    split at h
    · exact absurd h (by simp)
    · rename_i b hb
      split at h
      · exact absurd h (by simp)
      · rename_i bs' hbs'
        simp only [Except.ok.injEq] at h
        rw [← h]
        exact .cons hb (ih hbs')

theorem collectResults_isOk_iff {α β : Type} {f : α → Except GenError β} :
    ∀ {l : List α}, isOkE (collectResults f l) = true ↔ ∀ a ∈ l, isOkE (f a) = true := by
  intro l
  induction l with
  | nil => simp [collectResults, isOkE]
  | cons a as ih =>
    constructor
    · intro h x hx
      simp only [collectResults] at h
      split at h
      · simp [isOkE] at h
      · rename_i b hb
        rcases List.mem_cons.mp hx with hx | hx
        · rw [hx, hb]; rfl
        · split at h
          · simp [isOkE] at h
          · rename_i bs hbs
            exact ih.mp (by rw [hbs]; rfl) x hx
    · intro h
      have ha := h a (by simp)
      have : isOkE (collectResults f as) = true := ih.mpr (fun x hx => h x (by simp [hx]))
      simp only [collectResults]
      split
      · rename_i e he; rw [he] at ha; simp [isOkE] at ha
      · split
        · rename_i e he; rw [he] at this; simp [isOkE] at this
        · rfl

/-- Option-monad `mapM` (used only to phrase hypotheses about
cardinality decoding). -/
def mapO {α β : Type} (f : α → Option β) : List α → Option (List β)
  | [] => some []
  | a :: as =>
    match f a with
    | none => none
    | some b => (mapO f as).map (fun bs => b :: bs)

/-! ### `find_placeholders` never fails

The regex character class `[si]` only ever captures the tags `s` and
`i`, so the `UnsupportedPlaceholderKind` arm of
`PlaceholderKind::from_str` is unreachable from `find_placeholders`. -/

theorem rawCapturesFuel_tags (fuel : Nat) (cs : List Char) :
    ∀ c ∈ rawCapturesFuel fuel cs, c.tag = 's' ∨ c.tag = 'i' := by
  induction fuel, cs using rawCapturesFuel.induct <;>
    simp_all [rawCapturesFuel]

/-- The kind `PlaceholderKind::from_str` assigns to a valid tag. -/
def kindOfTag (t : Char) : PlaceholderKind :=
  if t = 'i' then .integer else .string

/-- The placeholder a raw capture is turned into. -/
def capturePlaceholder (c : RawCapture) : Placeholder :=
  { name := toMixedCase (String.mk c.rawName), kind := kindOfTag c.tag,
    matched := String.mk c.matched }

/-- Closed form of `find_placeholders`: it always succeeds. -/
def placeholdersOf (s : String) : List Placeholder :=
  (rawCaptures s.data).map capturePlaceholder

theorem find_placeholders_ok (s : String) :
    find_placeholders s = .ok (placeholdersOf s) := by
  apply collectResults_ok_of_forall
  intro c hc
  rcases rawCapturesFuel_tags _ _ c hc with h | h <;>
    simp only [capturePlaceholder] <;> rw [h] <;> rfl

/-! ### Closed forms of method synthesis -/

/-- The parameter type of a placeholder kind. -/
def phTy : PlaceholderKind → String
  | .string => "String"
  | .integer => "Int"

/-- The parameter a placeholder becomes. -/
def phParam (p : Placeholder) : Param := { name := Ident.new p.name, ty := phTy p.kind }

/-- The key-wide placeholder list: union over all translations, set
deduplication, sorted by name. -/
def keyPlaceholders (key : Key) : List Placeholder :=
  (((key.translations.map (fun t => placeholdersOf t.translation)).flatten).dedup).insertionSort phLe

theorem build_method_params_eq (key : Key) :
    build_method_params key =
      .ok (keyPlaceholders key, (keyPlaceholders key).map phParam) := by
  unfold build_method_params
  rw [collectResults_ok_of_forall (fun t _ => find_placeholders_ok t.translation)]
  rfl

/-- The implicit locale parameter. -/
def localeParam : Param := { name := Ident.new "locale", ty := "Locale" }

/-- The synthetic cardinality parameter. -/
def cardParam : Param := { name := Ident.new "cardinality", ty := "Cardinality" }

/-- The locale clause of a non-pluralized key's translation. -/
def noCardClause (key : Key) (t : Translation) : MatchClause :=
  MatchClause.mk ("Locale." ++ toTitleCase t.language_iso)
    (build_translated_value_with_interpolations t.translation (keyPlaceholders key))

/-- The method a non-pluralized key synthesizes. -/
def noCardMethod (key : Key) : MethodDef :=
  { name := Ident.new (toMixedCase key.key_name.ios),
    params := (keyPlaceholders key).map phParam,
    implicit_params := [localeParam],
    return_type := "String",
    body := .Match (.Var (Ident.new "locale")) (key.translations.map (noCardClause key)),
    comment := some (Comment.new key.key_name.ios) }

theorem translation_method_without_eq (key : Key) :
    translation_method_without_cardinality key = .ok (noCardMethod key) := by
  unfold translation_method_without_cardinality
  rw [build_method_params_eq]
  rfl

theorem translation_method_no_plural (key : Key)
    (h1 : key.key_name.all_same = true) (h2 : key.is_plural = false) :
    translation_method key = .ok (noCardMethod key) := by
  unfold translation_method
  rw [h1, h2]
  exact translation_method_without_eq key

/-- The locale clause of a pluralized key's translation, given its
decoded payload. -/
def cardClause (ph : List Placeholder) (t : Translation)
    (tc : TranslationWithCardinality) : MatchClause :=
  MatchClause.mk ("Locale." ++ toTitleCase t.language_iso)
    (.Match (.Var (Ident.new "cardinality"))
      [MatchClause.mk "Cardinality.Singular"
        (build_translated_value_with_interpolations tc.one ph),
       MatchClause.mk "Cardinality.Plural"
        (build_translated_value_with_interpolations tc.other ph)])

/-- The method a pluralized key synthesizes, given the decoded payloads
of its translations in order. -/
def cardMethod (key : Key) (tcs : List TranslationWithCardinality) : MethodDef :=
  { name := Ident.new (toMixedCase key.key_name.ios),
    params := (keyPlaceholders key).map phParam ++ [cardParam],
    implicit_params := [localeParam],
    return_type := "String",
    body := .Match (.Var (Ident.new "locale"))
      ((key.translations.zip tcs).map (fun p => cardClause (keyPlaceholders key) p.1 p.2)),
    comment := some (Comment.new key.key_name.ios) }

theorem collect_card_ok (ph : List Placeholder) :
    ∀ {ts : List Translation} {tcs : List TranslationWithCardinality},
    mapO (fun t => decodeCardinality t.translation) ts = some tcs →
    collectResults (card_locale_clause ph) ts =
      .ok ((ts.zip tcs).map (fun p => cardClause ph p.1 p.2)) := by
  intro ts
  induction ts with
  | nil =>
    intro tcs h
    simp only [mapO, Option.some.injEq] at h
    rw [← h]
    rfl
  | cons t ts ih =>
    intro tcs h
    simp only [mapO] at h
    split at h
    · exact absurd h (by simp)
    · rename_i tc htc
      rcases Option.map_eq_some'.mp h with ⟨tcs', htcs', rfl⟩
      simp only [collectResults, card_locale_clause, htc, ih htcs']
      rfl

theorem collect_card_err (ph : List Placeholder) :
    ∀ {ts : List Translation},
    mapO (fun t => decodeCardinality t.translation) ts = none →
    collectResults (card_locale_clause ph) ts =
      .error .malformedCardinalityPayload := by
  intro ts
  induction ts with
  | nil => intro h; simp [mapO] at h
  | cons t ts ih =>
    intro h
    simp only [mapO] at h
    split at h
    · rename_i htc
      simp [collectResults, card_locale_clause, htc]
    · rename_i tc htc
      have : mapO (fun t => decodeCardinality t.translation) ts = none := by
        cases hm : mapO (fun t => decodeCardinality t.translation) ts with
        | none => rfl
        | some tcs' => rw [hm] at h; simp at h
      simp [collectResults, card_locale_clause, htc, ih this]

theorem translation_method_with_eq (key : Key)
    (tcs : List TranslationWithCardinality)
    (h : mapO (fun t => decodeCardinality t.translation) key.translations = some tcs) :
    translation_method_with_cardinality key = .ok (cardMethod key tcs) := by
  unfold translation_method_with_cardinality
  rw [build_method_params_eq]
  show (match collectResults (card_locale_clause (keyPlaceholders key)) key.translations with
    | Except.error e => Except.error e
    | Except.ok locale_match_clauses =>
      Except.ok ({ name := Ident.new (toMixedCase key.key_name.ios),
                   params := (keyPlaceholders key).map phParam ++ [cardParam],
                   implicit_params := [localeParam], return_type := "String",
                   body := .Match (.Var (Ident.new "locale")) locale_match_clauses,
                   comment := some (Comment.new key.key_name.ios) } : MethodDef)) = _
  rw [collect_card_ok (keyPlaceholders key) h]
  rfl

theorem translation_method_with_err (key : Key)
    (h : mapO (fun t => decodeCardinality t.translation) key.translations = none) :
    translation_method_with_cardinality key = .error .malformedCardinalityPayload := by
  unfold translation_method_with_cardinality
  rw [build_method_params_eq]
  show (match collectResults (card_locale_clause (keyPlaceholders key)) key.translations with
    | Except.error e => Except.error e
    | Except.ok locale_match_clauses =>
      Except.ok ({ name := Ident.new (toMixedCase key.key_name.ios),
                   params := (keyPlaceholders key).map phParam ++ [cardParam],
                   implicit_params := [localeParam], return_type := "String",
                   body := .Match (.Var (Ident.new "locale")) locale_match_clauses,
                   comment := some (Comment.new key.key_name.ios) } : MethodDef)) = _
  rw [collect_card_err (keyPlaceholders key) h]

theorem translation_method_plural (key : Key)
    (h1 : key.key_name.all_same = true) (h2 : key.is_plural = true) :
    translation_method key = translation_method_with_cardinality key := by
  unfold translation_method
  rw [h1, h2]
  rfl

theorem translation_method_inconsistent (key : Key)
    (h : key.key_name.all_same = false) :
    translation_method key = .error (.inconsistentKeyName key) := by
  unfold translation_method
  rw [h]
  rfl

/-! ### `find_locales` facts -/

theorem find_locales_sorted (keys : List Key) :
    (find_locales keys).Sorted strLe :=
  List.sorted_insertionSort strLe _

theorem find_locales_nodup (keys : List Key) :
    (find_locales keys).Nodup :=
  ((List.perm_insertionSort strLe _).nodup_iff).mpr (List.nodup_dedup _)

theorem find_locales_mem (keys : List Key) (l : String) :
    l ∈ find_locales keys ↔
      l ∈ (keys.flatMap (fun k => k.translations)).map (fun t => t.language_iso) := by
  unfold find_locales
  rw [List.mem_insertionSort, List.mem_dedup]

theorem find_locales_perm {ks1 ks2 : List Key}
    (h : ((ks1.flatMap (fun k => k.translations)).map (fun t => t.language_iso)).Perm
         ((ks2.flatMap (fun k => k.translations)).map (fun t => t.language_iso))) :
    find_locales ks1 = find_locales ks2 := by
  unfold find_locales
  exact List.eq_of_perm_of_sorted
    ((List.perm_insertionSort strLe _).trans
      (h.dedup.trans (List.perm_insertionSort strLe _).symm))
    (List.sorted_insertionSort strLe _) (List.sorted_insertionSort strLe _)

/-! ## Claims -/

/-! ### C1

The claim says a marker whose kind tag is outside `{s, i}` makes
`find_placeholders` fail with `UnsupportedPlaceholderKind` rather than
being skipped.  The code's regex has the character class `[si]`, so a
marker such as `[%d:count]` never matches at all: extraction succeeds
and silently drops the marker, and the `UnsupportedPlaceholderKind` arm
of `PlaceholderKind::from_str` is unreachable from
`find_placeholders`. -/

/-- C1: evaluation of the code at the failing input `[%d:count]`:
placeholder extraction succeeds with the unknown-tag marker silently
dropped (and, in general, `find_placeholders` always succeeds — the
`UnsupportedPlaceholderKind` error is never produced), contradicting
the claim that such a marker must surface as a hard error. -/
theorem C1_unknown_tag_is_skipped :
    find_placeholders "[%d:count]" = .ok [] ∧
    find_placeholders "pay [%d:count] now [%s:name]" =
      .ok [{ name := "name", kind := .string, matched := "[%s:name]" }] ∧
    (∀ s, find_placeholders s = .ok (placeholdersOf s)) :=
  ⟨rfl, rfl, find_placeholders_ok⟩

/-! ### C2

The claim says `generate_code` output is invariant under permuting the
keys of a project and under permuting each key's translations.  It is
not: methods are emitted in input key order and locale clauses in input
translation order.  Only the derived locale enumeration is
reorder-invariant. -/

/-- A one-project fixture. -/
def projP : Project := ⟨"p", "p"⟩

/-- Fixture: key `a`, one English translation. -/
def kA : Key :=
  { key_id := 1, key_name := ⟨"a", "a", "a", "a"⟩,
    translations := [⟨"en", "A"⟩], is_plural := false }

/-- Fixture: key `b`, one English translation. -/
def kB : Key :=
  { key_id := 2, key_name := ⟨"b", "b", "b", "b"⟩,
    translations := [⟨"en", "E"⟩], is_plural := false }

/-- Fixture: key `t` with translations in order [en, da]. -/
def kT1 : Key :=
  { key_id := 4, key_name := ⟨"t", "t", "t", "t"⟩,
    translations := [⟨"en", "E"⟩, ⟨"da", "D"⟩], is_plural := false }

/-- Fixture: the same key `t` with its translations permuted. -/
def kT2 : Key :=
  { key_id := 4, key_name := ⟨"t", "t", "t", "t"⟩,
    translations := [⟨"da", "D"⟩, ⟨"en", "E"⟩], is_plural := false }

/-- C2 counterexample: permuting the two keys of a project changes the
output text, and so does permuting one key's two translations — the
generated method order and clause order follow input order. -/
theorem C2_counterexample :
    (generate_code [(projP, [kA, kB])]).toOption ≠
      (generate_code [(projP, [kB, kA])]).toOption ∧
    (generate_code [(projP, [kT1])]).toOption ≠
      (generate_code [(projP, [kT2])]).toOption :=
  ⟨by decide, by decide⟩

/-- C2 (amended): only the derived locale enumeration is invariant
under reordering: if two key lists produce the same multiset of
translation locales (in particular after permuting keys or any key's
translation list), `find_locales` — and with it the generated locale
singleton list — is unchanged; the full `generate_code` output is not
invariant (see the counterexample). -/
theorem C2_locale_enum_reorder_invariant {ks1 ks2 : List Key}
    (h : ((ks1.flatMap (fun k => k.translations)).map (fun t => t.language_iso)).Perm
         ((ks2.flatMap (fun k => k.translations)).map (fun t => t.language_iso))) :
    find_locales ks1 = find_locales ks2 ∧
    locale_enum_variants ks1 = locale_enum_variants ks2 := by
  have heq := find_locales_perm h
  exact ⟨heq, by unfold locale_enum_variants; rw [heq]⟩

/-- C2 witness: the amended statement applied to the permuted-
translations fixture. -/
theorem C2_witness :
    find_locales [kT1] = find_locales [kT2] ∧
    locale_enum_variants [kT1] = locale_enum_variants [kT2] :=
  C2_locale_enum_reorder_invariant (by decide)

/-! ### C3

The claim says parameters are deduplicated by the pair (name, kind).
The code deduplicates the `Placeholder` set by the full triple (name,
kind, matched marker text): two markers that mixed-case to the same
name but have different raw spellings survive as two parameters. -/

/-- Fixture: one translation containing `[%s:user_name]` and
`[%s:userName]`, two distinct markers that both mixed-case to the
parameter name `userName`. -/
def k3 : Key :=
  { key_id := 3, key_name := ⟨"greet", "greet", "greet", "greet"⟩,
    translations := [⟨"en", "hi [%s:user_name] and [%s:userName]"⟩],
    is_plural := false }

/-- C3 counterexample: on `k3` the synthesized parameter list contains
the pair (`userName`, `String`) twice — the parameters are *not*
deduplicated by (name, kind); the placeholder set keeps both triples
because their matched marker texts differ. -/
theorem C3_counterexample :
    build_method_params k3 =
      .ok ([{ name := "userName", kind := .string, matched := "[%s:user_name]" },
            { name := "userName", kind := .string, matched := "[%s:userName]" }],
           [{ name := Ident.new "userName", ty := "String" },
            { name := Ident.new "userName", ty := "String" }]) ∧
    ¬ (((keyPlaceholders k3).map phParam).map (fun p => (p.name.name, p.ty))).Nodup :=
  ⟨rfl, by decide⟩

/-- C3 (amended): the parameter list is obtained by extracting the
placeholders of every translation, taking the union across locales,
deduplicating by the full triple (name, kind, matched marker text),
sorting by name, and typing each parameter `String` or `Int` by kind:
`build_method_params` always succeeds; its placeholder list is exactly
the set of placeholders occurring in some translation (no duplicate
triples), it is sorted by name, and the parameters are its image under
`phParam`. -/
theorem C3_params_construction (key : Key) :
    build_method_params key =
      .ok (keyPlaceholders key, (keyPlaceholders key).map phParam) ∧
    (keyPlaceholders key).Nodup ∧
    (keyPlaceholders key).Sorted phLe ∧
    (∀ p, p ∈ keyPlaceholders key ↔
      ∃ t ∈ key.translations, p ∈ placeholdersOf t.translation) := by
  refine ⟨build_method_params_eq key, ?_, List.sorted_insertionSort phLe _, ?_⟩
  · exact ((List.perm_insertionSort phLe _).nodup_iff).mpr (List.nodup_dedup _)
  · intro p
    unfold keyPlaceholders
    rw [List.mem_insertionSort, List.mem_dedup, List.mem_flatten]
    constructor
    · rintro ⟨l, hl, hp⟩
      rcases List.mem_map.mp hl with ⟨t, ht, rfl⟩
      exact ⟨t, ht, hp⟩
    · rintro ⟨t, ht, hp⟩
      exact ⟨placeholdersOf t.translation, List.mem_map.mpr ⟨t, ht, rfl⟩, hp⟩

/-! ### C4 -/

/-- Fixture: a key whose four platform names are not pairwise
identical. -/
def kBad : Key :=
  { key_id := 9, key_name := ⟨"x", "y", "x", "x"⟩,
    translations := [⟨"en", "X"⟩], is_plural := false }

/-- A second project fixture. -/
def projQ : Project := ⟨"q", "other_project"⟩

/-- C4: `generate_code` is fail-closed and atomic: if method synthesis
fails for any key of any supplied project — in particular, a key whose
four platform names are not pairwise identical fails with
`InconsistentKeyName` — the whole run returns an error and no output
text is produced. -/
theorem C4_fail_closed (projects : List (Project × List Key))
    (pr : Project × List Key) (k : Key) (e : GenError)
    (hpr : pr ∈ projects) (hk : k ∈ pr.2)
    (he : translation_method k = .error e) :
    (∀ key : Key, key.key_name.all_same = false →
      translation_method key = .error (.inconsistentKeyName key)) ∧
    ∃ e', generate_code projects = .error e' := by
  refine ⟨translation_method_inconsistent, ?_⟩
  have hk' : isOkE (translation_method k) = false := by rw [he]; rfl
  have h1 : isOkE (translation_methods pr.2) = false := by
    cases hok : isOkE (translation_methods pr.2) with
    | false => rfl
    | true =>
      have := collectResults_isOk_iff.mp hok k hk
      rw [hk'] at this
      exact absurd this (by simp)
  obtain ⟨e1, he1⟩ : ∃ e1, translation_methods pr.2 = .error e1 := by
    cases hm : translation_methods pr.2 with
    | error e1 => exact ⟨e1, rfl⟩
    | ok ms => rw [hm] at h1; simp [isOkE] at h1
  have houter :
      isOkE (collectResults
        (fun p => match translation_methods p.2 with
          | .error e => .error e
          | .ok methods =>
            .ok (Item.Object false (toMixedCase p.1.name) [] methods none))
        projects) = false := by
    cases hok : isOkE (collectResults
        (fun p => match translation_methods p.2 with
          | .error e => .error e
          | .ok methods =>
            .ok (Item.Object false (toMixedCase p.1.name) [] methods none))
        projects) with
    | false => rfl
    | true =>
      have := collectResults_isOk_iff.mp hok pr hpr
      rw [he1] at this
      simp [isOkE] at this
  obtain ⟨e2, he2⟩ : ∃ e2, collectResults
      (fun p => match translation_methods p.2 with
        | .error e => .error e
        | .ok methods =>
          .ok (Item.Object false (toMixedCase p.1.name) [] methods none))
      projects = .error e2 := by
    cases hm : collectResults
        (fun p => match translation_methods p.2 with
          | .error e => .error e
          | .ok methods =>
            .ok (Item.Object false (toMixedCase p.1.name) [] methods none))
        projects with
    | error e2 => exact ⟨e2, rfl⟩
    | ok its => rw [hm] at houter; simp [isOkE] at houter
  refine ⟨e2, ?_⟩
  unfold generate_code generate_items
  rw [he2]

/-- C4 witness: a project set containing `kBad` (whose platform names
differ) makes the whole run fail. -/
theorem C4_witness :
    (∀ key : Key, key.key_name.all_same = false →
      translation_method key = .error (.inconsistentKeyName key)) ∧
    ∃ e', generate_code [(projP, [kA]), (projQ, [kA, kBad])] = .error e' :=
  C4_fail_closed [(projP, [kA]), (projQ, [kA, kBad])] (projQ, [kA, kBad]) kBad
    (.inconsistentKeyName kBad) (by simp) (by simp) rfl

/-! ### C5 -/

/-- C5: for every non-pluralized key (with consistent platform names),
synthesis unconditionally succeeds and the method body is a match on
`locale` with exactly one clause per entry of the key's own
translations list, in input order, each clause's pattern naming that
translation's locale.  No locale-coverage check exists: the key's
locale set is never compared with any derived locale set, and no
`MissingLocaleCoverage`-style error is ever raised (the success below
is unconditional in the key's translations). -/
theorem C5_locale_match_per_translation (key : Key)
    (h1 : key.key_name.all_same = true) (h2 : key.is_plural = false) :
    translation_method key = .ok (noCardMethod key) ∧
    (noCardMethod key).body =
      .Match (.Var (Ident.new "locale")) (key.translations.map (noCardClause key)) ∧
    (key.translations.map (noCardClause key)).map MatchClause.pattern =
      key.translations.map (fun t => "Locale." ++ toTitleCase t.language_iso) ∧
    ((key.translations.map (noCardClause key)).length = key.translations.length) := by
  refine ⟨translation_method_no_plural key h1 h2, rfl, ?_, List.length_map _ _⟩
  rw [List.map_map]
  rfl

/-- Fixture: a key carrying a translation for `da` only — even when
other keys contribute more locales to the derived locale set, this key
still generates successfully, with a dispatch lacking any `en`
clause. -/
def k5 : Key :=
  { key_id := 5, key_name := ⟨"bye", "bye", "bye", "bye"⟩,
    translations := [⟨"da", "Farvel"⟩], is_plural := false }

/-- C5 witness: the theorem applied to the single-locale fixture
key. -/
theorem C5_witness :
    translation_method k5 = .ok (noCardMethod k5) ∧
    (noCardMethod k5).body =
      .Match (.Var (Ident.new "locale")) (k5.translations.map (noCardClause k5)) ∧
    (k5.translations.map (noCardClause k5)).map MatchClause.pattern =
      k5.translations.map (fun t => "Locale." ++ toTitleCase t.language_iso) ∧
    ((k5.translations.map (noCardClause k5)).length = k5.translations.length) :=
  C5_locale_match_per_translation k5 rfl rfl

/-! ### C6 -/

/-- C6: for every pluralized key (with consistent platform names),
synthesis appends exactly one Cardinality-typed parameter after the
placeholder-derived parameters; each translation's raw text is decoded
as a cardinality object with `one`/`other` string variants — if every
translation decodes, the body is an outer match on `locale` whose
clauses, one per translation in order, are inner two-clause matches on
`cardinality` (`Singular` then `Plural`) with string-literal leaves
(see `cardClause`); if any translation fails to decode, the run fails
with the cardinality-payload error. -/
theorem C6_pluralized_key (key : Key)
    (h1 : key.key_name.all_same = true) (h2 : key.is_plural = true) :
    (∀ tcs, mapO (fun t => decodeCardinality t.translation) key.translations = some tcs →
      translation_method key = .ok (cardMethod key tcs) ∧
      (cardMethod key tcs).params = (keyPlaceholders key).map phParam ++ [cardParam] ∧
      (cardMethod key tcs).body =
        .Match (.Var (Ident.new "locale"))
          ((key.translations.zip tcs).map
            (fun p => cardClause (keyPlaceholders key) p.1 p.2))) ∧
    (mapO (fun t => decodeCardinality t.translation) key.translations = none →
      translation_method key = .error .malformedCardinalityPayload) := by
  constructor
  · intro tcs htcs
    rw [translation_method_plural key h1 h2]
    exact ⟨translation_method_with_eq key tcs htcs, rfl, rfl⟩
  · intro hnone
    rw [translation_method_plural key h1 h2]
    exact translation_method_with_err key hnone

/-- Fixture: a pluralized key with the two locales en and da, each raw
text a JSON cardinality object. -/
def k6 : Key :=
  { key_id := 6, key_name := ⟨"items", "items", "items", "items"⟩,
    translations :=
      [⟨"en", "\x7b\"one\": \"one item\", \"other\": \"[%i:count] items\"\x7d"⟩,
       ⟨"da", "\x7b\"one\": \"en ting\", \"other\": \"[%i:count] ting\"\x7d"⟩],
    is_plural := true }

/-- The decoded payloads of `k6`'s two translations. -/
def tcs6 : List TranslationWithCardinality :=
  [⟨"one item", "[%i:count] items"⟩, ⟨"en ting", "[%i:count] ting"⟩]

/-- C6 witness: the theorem applied to the two-locale pluralized
fixture; the resulting method takes the placeholder parameter `count`
plus the cardinality parameter, and its body is a locale match with two
clauses, each a two-clause cardinality match. -/
theorem C6_witness :
    translation_method k6 = .ok (cardMethod k6 tcs6) ∧
    (cardMethod k6 tcs6).params = (keyPlaceholders k6).map phParam ++ [cardParam] ∧
    (cardMethod k6 tcs6).body =
      .Match (.Var (Ident.new "locale"))
        ((k6.translations.zip tcs6).map
          (fun p => cardClause (keyPlaceholders k6) p.1 p.2)) ∧
    (cardMethod k6 tcs6).params =
      [{ name := Ident.new "count", ty := "Int" }, cardParam] ∧
    ((k6.translations.zip tcs6).map
        (fun p => cardClause (keyPlaceholders k6) p.1 p.2)).length = 2 :=
  ⟨((C6_pluralized_key k6 rfl rfl).1 tcs6 rfl).1,
   ((C6_pluralized_key k6 rfl rfl).1 tcs6 rfl).2.1,
   ((C6_pluralized_key k6 rfl rfl).1 tcs6 rfl).2.2, rfl, rfl⟩

/-! ### C7 -/

/-- C7: for every non-pluralized key (with consistent platform names),
every leaf is built by rewriting the translation's raw text with the
*key-wide* placeholder union (`keyPlaceholders`), whose members each
replace their matched marker by the interpolation reference
`$\x7bname\x7d`; hence every placeholder name used in a leaf is the
name of a method parameter, even when that leaf's own raw text uses
only a subset of the key's markers. -/
theorem C7_leaf_interpolation (key : Key)
    (h1 : key.key_name.all_same = true) (h2 : key.is_plural = false) :
    ∃ m, translation_method key = .ok m ∧
      m.params = (keyPlaceholders key).map phParam ∧
      (∃ cls, m.body = .Match (.Var (Ident.new "locale")) cls ∧
        List.Forall₂ (fun (t : Translation) (c : MatchClause) =>
            c.expr = build_translated_value_with_interpolations
              t.translation (keyPlaceholders key))
          key.translations cls) ∧
      (∀ p ∈ keyPlaceholders key, Ident.new p.name ∈ m.params.map Param.name) := by
  refine ⟨noCardMethod key, translation_method_no_plural key h1 h2, rfl,
    ⟨key.translations.map (noCardClause key), rfl, ?_⟩, ?_⟩
  · rw [List.forall₂_map_right_iff]
    exact (List.forall₂_same).mpr (fun t _ => rfl)
  · intro p hp
    exact List.mem_map.mpr ⟨phParam p, List.mem_map.mpr ⟨p, hp, rfl⟩, rfl⟩

/-- Fixture: a key whose single translation holds the markers
`[%s:name]` and `[%i:count]`. -/
def k7 : Key :=
  { key_id := 7, key_name := ⟨"msg", "msg", "msg", "msg"⟩,
    translations := [⟨"en", "x [%s:name] y [%i:count]"⟩],
    is_plural := false }

/-- C7 witness: on `k7` the method has exactly the two parameters
(`count`: integer, `name`: text) in sorted name order, and the leaf has
both markers replaced by references to those exact names. -/
theorem C7_witness :
    (∃ m, translation_method k7 = .ok m ∧
      m.params = (keyPlaceholders k7).map phParam ∧
      (∃ cls, m.body = .Match (.Var (Ident.new "locale")) cls ∧
        List.Forall₂ (fun (t : Translation) (c : MatchClause) =>
            c.expr = build_translated_value_with_interpolations
              t.translation (keyPlaceholders k7))
          k7.translations cls) ∧
      (∀ p ∈ keyPlaceholders k7, Ident.new p.name ∈ m.params.map Param.name)) ∧
    (keyPlaceholders k7).map phParam =
      [{ name := Ident.new "count", ty := "Int" },
       { name := Ident.new "name", ty := "String" }] ∧
    build_translated_value_with_interpolations
        "x [%s:name] y [%i:count]" (keyPlaceholders k7) =
      .StrLit "x $\x7bname\x7d y $\x7bcount\x7d" true :=
  ⟨C7_leaf_interpolation k7 rfl rfl, rfl, rfl⟩

/-! ### C8

The claim says *every* rendering of a keyword-colliding key or
placeholder name — where declared and where referenced — is
quoted/escaped.  Identifiers rendered through `Ident::to_code` (method
names, parameter declarations, match scrutinee variables) are indeed
backtick-escaped, but `build_translated_value_with_interpolations`
splices the bare placeholder name into the interpolation reference
`$\x7bname\x7d` with plain string formatting, bypassing `Ident`: a
keyword-named placeholder is referenced unescaped in the leaf. -/

/-- Fixture: a key whose single translation's placeholder is named
`type`, a reserved keyword of the target language. -/
def k8 : Key :=
  { key_id := 8, key_name := ⟨"greet", "greet", "greet", "greet"⟩,
    translations := [⟨"en", "hello [%s:type]"⟩], is_plural := false }

/-- C8 counterexample: on `k8` the parameter *declaration* renders
backtick-escaped, but the leaf's interpolation *reference* renders the
keyword `type` bare — the rendered leaf is `s"""hello $\x7btype\x7d"""`
and not the escaped variant, so not every rendering of this identifier
is escaped. -/
theorem C8_counterexample :
    is_keyword "type" = true ∧
    translation_method k8 = .ok (noCardMethod k8) ∧
    (noCardMethod k8).body =
      .Match (.Var (Ident.new "locale"))
        [MatchClause.mk "Locale.En" (.StrLit "hello $\x7btype\x7d" true)] ∧
    Expr.to_code (.StrLit "hello $\x7btype\x7d" true) 0 =
      "s\"\"\"hello $\x7btype\x7d\"\"\"" ∧
    Expr.to_code (.StrLit "hello $\x7btype\x7d" true) 0 ≠
      "s\"\"\"hello $\x7b`type`\x7d\"\"\"" ∧
    (noCardMethod k8).params.map (fun p => p.to_code 0) = ["`type`: String"] :=
  ⟨rfl, translation_method_no_plural k8 rfl rfl, rfl, rfl, by decide, rfl⟩

/-- C8 (amended): identifiers rendered through `Ident::to_code` — the
declared method name, parameter declarations, and variable references
that go through `Ident` — are backtick-quoted whenever they collide
with a reserved keyword, and rendered verbatim otherwise; but the
interpolation references inside rewritten leaves are spliced in as bare
text, unescaped (see the counterexample). -/
theorem C8_ident_keyword_escaping (name : String) (indent : Nat)
    (h : is_keyword name = true) :
    Ident.to_code (Ident.new name) indent =
      spaces indent ++ "`" ++ name ++ "`" := by
  unfold Ident.to_code Ident.new
  rw [h]
  simp

/-- C8 witness: the amended escaping statement at the keyword
`match`. -/
theorem C8_witness :
    is_keyword "match" = true ∧
    Ident.to_code (Ident.new "match") 2 = spaces 2 ++ "`" ++ "match" ++ "`" :=
  ⟨by decide, C8_ident_keyword_escaping "match" 2 (by decide)⟩

/-! ### C9 -/

/-- C9: whenever generation succeeds, the assembled compilation unit
holds, in fixed order: the `format: off` comment, the package
declaration `dk.undo.i18n`, the sealed two-variant `Cardinality` trait
with its two case-object singletons, the sealed `Locale` trait with
exactly one singleton per distinct locale appearing across all keys'
translations (camel-cased, sorted), the `I18n` container with one
nested object per supplied project holding that project's synthesized
methods, and the `format: on` comment. -/
theorem C9_unit_shape (projects : List (Project × List Key)) (items : List Item)
    (h : generate_items projects = .ok items) :
    ∃ inner,
      items =
        [Item.Comment (Comment.new "format: off"),
         Item.Package [Ident.new "dk", Ident.new "undo", Ident.new "i18n"],
         Item.Trait "Cardinality" true,
         Item.Object false "Cardinality"
           [Item.Object true "Singular" [] [] (some "Cardinality"),
            Item.Object true "Plural" [] [] (some "Cardinality")] [] none,
         Item.Trait "Locale" true,
         Item.Object false "Locale"
           ((find_locales (projects.flatMap (fun p => p.2))).map
             (fun locale => Item.Object false (toCamelCase locale) [] [] (some "Locale")))
           [] none,
         Item.Object false "I18n" inner [] none,
         Item.Comment (Comment.new "format: on")] ∧
      List.Forall₂ (fun (p : Project × List Key) (obj : Item) =>
          ∃ ms, translation_methods p.2 = .ok ms ∧
            obj = Item.Object false (toMixedCase p.1.name) [] ms none)
        projects inner ∧
      (find_locales (projects.flatMap (fun p => p.2))).Sorted strLe ∧
      (find_locales (projects.flatMap (fun p => p.2))).Nodup ∧
      (∀ l, l ∈ find_locales (projects.flatMap (fun p => p.2)) ↔
        l ∈ ((projects.flatMap (fun p => p.2)).flatMap
              (fun k => k.translations)).map (fun t => t.language_iso)) := by
  unfold generate_items at h
  cases hc : collectResults
      (fun p => match translation_methods p.2 with
        | .error e => .error e
        | .ok methods =>
          .ok (Item.Object false (toMixedCase p.1.name) [] methods none))
      projects with
  | error e =>
    rw [hc] at h
    exact absurd h (by simp)
  | ok inner =>
    rw [hc] at h
    simp only [Except.ok.injEq] at h
    refine ⟨inner, ?_, ?_, find_locales_sorted _, find_locales_nodup _,
      fun l => find_locales_mem _ l⟩
    · rw [← h]
      rfl
    · refine (collectResults_forall2 hc).imp ?_
      intro p obj hpo
      cases hm : translation_methods p.2 with
      | error e =>
        rw [hm] at hpo
        exact absurd hpo (by simp)
      | ok ms =>
        rw [hm] at hpo
        simp only [Except.ok.injEq] at hpo
        exact ⟨ms, rfl, hpo.symm⟩

/-- Fixture key for the C9 witness. -/
def kHello : Key :=
  { key_id := 10, key_name := ⟨"hello", "hello", "hello", "hello"⟩,
    translations := [⟨"en", "Hello [%s:name]"⟩, ⟨"da", "Hej [%s:name]"⟩],
    is_plural := false }

/-- Project fixture for the C9 witness. -/
def projR : Project := ⟨"r", "my_project"⟩

/-- The items `generate_items` assembles for the C9 witness input. -/
def items9 : List Item :=
  [Item.Comment (Comment.new "format: off"),
   Item.Package [Ident.new "dk", Ident.new "undo", Ident.new "i18n"],
   Item.Trait "Cardinality" true,
   Item.Object false "Cardinality"
     [Item.Object true "Singular" [] [] (some "Cardinality"),
      Item.Object true "Plural" [] [] (some "Cardinality")] [] none,
   Item.Trait "Locale" true,
   Item.Object false "Locale"
     [Item.Object false "Da" [] [] (some "Locale"),
      Item.Object false "En" [] [] (some "Locale")] [] none,
   Item.Object false "I18n"
     [Item.Object false "myProject" [] [noCardMethod kHello] none] [] none,
   Item.Comment (Comment.new "format: on")]

/-- C9 witness: the theorem applied to one concrete project with one
key translated into en and da: two locale singletons `Da`, `En` in
sorted order, one nested project object. -/
theorem C9_witness :
    ∃ inner,
      items9 =
        [Item.Comment (Comment.new "format: off"),
         Item.Package [Ident.new "dk", Ident.new "undo", Ident.new "i18n"],
         Item.Trait "Cardinality" true,
         Item.Object false "Cardinality"
           [Item.Object true "Singular" [] [] (some "Cardinality"),
            Item.Object true "Plural" [] [] (some "Cardinality")] [] none,
         Item.Trait "Locale" true,
         Item.Object false "Locale"
           ((find_locales ([(projR, [kHello])].flatMap (fun p => p.2))).map
             (fun locale => Item.Object false (toCamelCase locale) [] [] (some "Locale")))
           [] none,
         Item.Object false "I18n" inner [] none,
         Item.Comment (Comment.new "format: on")] ∧
      List.Forall₂ (fun (p : Project × List Key) (obj : Item) =>
          ∃ ms, translation_methods p.2 = .ok ms ∧
            obj = Item.Object false (toMixedCase p.1.name) [] ms none)
        [(projR, [kHello])] inner ∧
      (find_locales ([(projR, [kHello])].flatMap (fun p => p.2))).Sorted strLe ∧
      (find_locales ([(projR, [kHello])].flatMap (fun p => p.2))).Nodup ∧
      (∀ l, l ∈ find_locales ([(projR, [kHello])].flatMap (fun p => p.2)) ↔
        l ∈ (([(projR, [kHello])].flatMap (fun p => p.2)).flatMap
              (fun k => k.translations)).map (fun t => t.language_iso)) :=
  C9_unit_shape [(projR, [kHello])] items9 rfl

/-! ### C10 -/

/-- C10: pretty-printing is total: `to_code` (and with it every node
renderer it invokes — items, methods, expressions, identifiers,
parameters) is a function into `String` defined on every AST value, so
rendering never fails; and rendering introduces no failure into
`generate_code`: whenever item assembly succeeds, `generate_code`
succeeds with exactly the rendered text — all failure is confined to
the synthesis phase. -/
theorem C10_rendering_total :
    (∀ t : TopLevel, ∃ s, to_code t = s) ∧
    (∀ (projects : List (Project × List Key)) (items : List Item),
      generate_items projects = .ok items →
      generate_code projects = .ok (to_code { items := items })) := by
  constructor
  · intro t
    exact ⟨to_code t, rfl⟩
  · intro projects items h
    unfold generate_code
    rw [h]

/-- C10 witness: rendering the empty-input unit, and `generate_code`
on no projects succeeding with exactly the rendered text. -/
theorem C10_witness :
    (∃ s, to_code { items := items9 } = s) ∧
    generate_code [] =
      .ok (to_code { items :=
        [Item.Comment (Comment.new "format: off")] ++ hardcoded_items ++
        [Item.Trait "Locale" true, Item.Object false "Locale" [] [] none] ++
        [Item.Object false "I18n" [] [] none] ++
        [Item.Comment (Comment.new "format: on")] }) :=
  ⟨C10_rendering_total.1 { items := items9 },
   C10_rendering_total.2 [] _ rfl⟩

end I18nGen
